import Mathlib

/-!
Verification of the predictive bottleneck forecasting pipeline of the
`newcrowd` repository.

The embedded code lives in:
* `src/prediction.py` — `simulate_crowd_series`, `forecast_next`,
  `bottleneck_probability`;
* `src/features/predictive.py` — the risk-tier branch of `predictive_page`
  and the density extraction of `_estimate_from_video`;
* `src/db.py` — `add_alert`, `list_alerts`.

Real numbers of the Python code (numpy float64) are modelled by `ℚ`; the
spec's properties are stated over exact arithmetic.  `np.round(x, 2)` is
modelled by round-half-to-even on `100 * x` (numpy's rounding mode).
`sklearn.LinearRegression` computes the ordinary-least-squares fit; on a
design of zero variance (a single sample) its `lstsq` backend returns the
minimum-norm solution, i.e. zero slope and the mean as intercept, which the
closed-form embedding below reproduces with the `Sxx = 0` branch.
Fallible operations return `Option`: `none` models a Python-level failure
(`ValueError` from a zero-sample fit) or numpy's NaN result (mean of an
empty slice).
-/

namespace NewCrowd

/-- `np.clip(x, 0.2, 5.0)` from `src/prediction.py`: raise to `0.2`, then
cap at `5.0`. -/
def clip (x : ℚ) : ℚ :=
  if x < 1/5 then 1/5
  else if 5 < x then 5
  else x

/-- `simulate_crowd_series(n, base_density, noise)` from `src/prediction.py`:
`np.clip(base_density + 0.01 * t + normal_draw(t), 0.2, 5.0)` for
`t = 0..n-1`.  The gaussian draws are abstracted as an injected sequence
`noise : ℕ → ℚ` (the spec requires the noise source to be injectable). -/
def simulate_crowd_series (n : ℕ) (base_density : ℚ) (noise : ℕ → ℚ) : List ℚ :=
  (List.range n).map (fun t => clip (base_density + (1/100) * t + noise t))

/-- `i`-th observation of a series (`series[i]` in the Python code; the
default `0` is never reached at in-range indices). -/
def obs (ys : List ℚ) (i : ℕ) : ℚ := ys.getD i 0

/-- Mean of the regression abscissae `0..n-1` (`X.mean()` inside the
least-squares fit of `LinearRegression`). -/
def xbar (n : ℕ) : ℚ := (∑ i in Finset.range n, (i : ℚ)) / n

/-- Mean of the series (`y.mean()` inside the least-squares fit). -/
def ybar (ys : List ℚ) : ℚ := (∑ i in Finset.range ys.length, obs ys i) / ys.length

/-- Centered abscissa `i - xbar`. -/
def xdev (n : ℕ) (i : ℕ) : ℚ := (i : ℚ) - xbar n

/-- `Σ (i - xbar)^2`, the variance part of the closed-form OLS slope. -/
def Sxx (n : ℕ) : ℚ := ∑ i in Finset.range n, (xdev n i)^2

/-- `Σ (i - xbar) * (y_i - ybar)`, the covariance part of the OLS slope. -/
def Sxy (ys : List ℚ) : ℚ :=
  ∑ i in Finset.range ys.length, xdev ys.length i * (obs ys i - ybar ys)

/-- Slope fitted by `LinearRegression().fit(X, y)` in `forecast_next`
(`src/prediction.py`): the ordinary-least-squares slope `Sxy / Sxx`; on a
zero-variance design (one sample) the `lstsq` backend yields the
minimum-norm coefficient `0`. -/
def slope (ys : List ℚ) : ℚ :=
  if Sxx ys.length = 0 then 0 else Sxy ys / Sxx ys.length

/-- Intercept fitted by `LinearRegression().fit(X, y)`. -/
def intercept (ys : List ℚ) : ℚ := ybar ys - slope ys * xbar ys.length

/-- `forecast_next(series, steps)` from `src/prediction.py`: fit a linear
regression on `(i, series[i])`, predict at `len(series)..len(series)+steps-1`
and `np.clip` the predictions into `[0.2, 5.0]`.  On an empty series the
fit raises (`sklearn` rejects a zero-sample fit), modelled as `none`. -/
def forecast_next (ys : List ℚ) (steps : ℕ) : Option (List ℚ) :=
  if ys.length = 0 then none
  else some ((List.range steps).map
    (fun j : ℕ => clip (intercept ys + slope ys * ((ys.length : ℚ) + (j : ℚ)))))

/-- Default of the `steps` parameter in the signature
`def forecast_next(series, steps: int = 15)`. -/
def forecast_next_default_steps : ℕ := 15

/-- Round half to even, numpy's rounding mode (`np.round`). -/
def roundHalfEven (q : ℚ) : ℤ :=
  if q - ⌊q⌋ < 1/2 then ⌊q⌋
  else if 1/2 < q - ⌊q⌋ then ⌊q⌋ + 1
  else if ⌊q⌋ % 2 = 0 then ⌊q⌋ else ⌊q⌋ + 1

/-- `np.round(q, 2)`: round to two decimal places, ties to even. -/
def np_round2 (q : ℚ) : ℚ := (roundHalfEven (q * 100) : ℚ) / 100

/-- Number of forecast points at or above the threshold
(`(pred_density >= threshold)` summed). -/
def countGe (pred : List ℚ) (threshold : ℚ) : ℕ :=
  (pred.filter (fun x => threshold ≤ x)).length

/-- `bottleneck_probability(pred_density, threshold)` from
`src/prediction.py`: `np.round((pred_density >= threshold).mean(), 2)`.
On an empty window numpy's `.mean()` yields NaN (with a runtime warning),
modelled as `none`. -/
def bottleneck_probability (pred : List ℚ) (threshold : ℚ) : Option ℚ :=
  if pred.length = 0 then none
  else some (np_round2 ((countGe pred threshold : ℚ) / pred.length))

/-- Default of the `threshold` parameter in the signature
`def bottleneck_probability(pred_density, threshold: float = 4.0)`. -/
def bottleneck_default_threshold : ℚ := 4

/-- Risk tiers of the spec's classifier. -/
inductive RiskTier
  | LOW
  | MEDIUM
  | HIGH
deriving DecidableEq

/-- The risk-tier branch of `predictive_page` (`src/features/predictive.py`
lines 230–238): `if prob >= 0.8 … elif prob >= 0.5 … else …`. -/
def classify (p : ℚ) : RiskTier :=
  if 4/5 ≤ p then .HIGH
  else if 1/2 ≤ p then .MEDIUM
  else .LOW

/-- Alert row of the `alerts` table (`src/db.py`). -/
structure Alert where
  zone : String
  risk_level : String
  prediction_time : String
deriving DecidableEq

/-- `add_alert(zone, risk_level, prediction_time)` from `src/db.py`: an
`INSERT` into the append-only `alerts` table; rows carry increasing
autoincrement ids, so the table is the insertion-ordered list and an insert
appends at the end. -/
def add_alert (log : List Alert) (a : Alert) : List Alert := log ++ [a]

/-- `list_alerts(limit)` from `src/db.py`:
`SELECT * FROM alerts ORDER BY id DESC LIMIT ?` — most recent first,
truncated to `limit`. -/
def list_alerts (log : List Alert) (limit : ℕ) : List Alert :=
  log.reverse.take limit

/-- The alert-emission branch of `predictive_page`
(`src/features/predictive.py` lines 230–238): `add_alert(zone, "high", now)`
when `prob >= 0.8`, `add_alert(zone, "medium", now)` when `prob >= 0.5`,
nothing otherwise.  `now` is the `datetime.utcnow().isoformat()` string of
the call site, passed here as the parameter `t`. -/
def predictive_alert (log : List Alert) (zone : String) (prob : ℚ) (t : String) :
    List Alert :=
  if 4/5 ≤ prob then add_alert log ⟨zone, "high", t⟩
  else if 1/2 ≤ prob then add_alert log ⟨zone, "medium", t⟩
  else log

/-- The forecast horizon the dashboard passes explicitly:
`pred = forecast_next(series, steps=20)` (`src/features/predictive.py`
line 224). -/
def predictive_page_steps : ℕ := 20

/-- The threshold the dashboard passes explicitly:
`prob = bottleneck_probability(pred, threshold=4.0)`
(`src/features/predictive.py` line 230). -/
def predictive_page_threshold : ℚ := 4

/-- Per-frame density of `_estimate_from_video`
(`src/features/predictive.py`): `count / max(area_m2, 1e-6)` — not clamped. -/
def frame_density (count : ℕ) (area_m2 : ℚ) : ℚ :=
  (count : ℚ) / (if area_m2 < 1/1000000 then 1/1000000 else area_m2)

/-- Acceptance of an externally-derived series in `predictive_page`
(`src/features/predictive.py` lines 218–219):
`if len(dens) >= 5: sim["density_series"] = dens` — the camera series
replaces the current one unmodified whenever it has at least 5 points. -/
def accept_video_series (dens cur : List ℚ) : List ℚ :=
  if 5 ≤ dens.length then dens else cur

/-- Sum of squared residuals of the line `y = a * x + b` over the series:
the objective `LinearRegression` minimizes. -/
def SSE (ys : List ℚ) (a b : ℚ) : ℚ :=
  ∑ i in Finset.range ys.length, (obs ys i - (a * i + b))^2

/-! ### Basic facts about `clip` and the rounding mode -/

lemma clip_mem (x : ℚ) : 1/5 ≤ clip x ∧ clip x ≤ 5 := by
  unfold clip
  split_ifs with h1 h2 <;> constructor <;> linarith

lemma clip_eq_self {x : ℚ} (h1 : 1/5 ≤ x) (h2 : x ≤ 5) : clip x = x := by
  unfold clip
  rw [if_neg (by linarith), if_neg (by linarith)]

lemma floor_le_roundHalfEven (q : ℚ) : ⌊q⌋ ≤ roundHalfEven q := by
  unfold roundHalfEven
  split_ifs <;> omega

lemma roundHalfEven_le_ceil (q : ℚ) : roundHalfEven q ≤ ⌈q⌉ := by
  have hfc : ⌊q⌋ ≤ ⌈q⌉ := Int.floor_le_ceil q
  have hlt : 1/2 < q - ⌊q⌋ ∨ ¬(q - ⌊q⌋ < 1/2) → ⌊q⌋ + 1 ≤ ⌈q⌉ := by
    intro h
    have hq : (⌊q⌋ : ℚ) < q := by
      rcases h with h | h <;> linarith [Int.floor_le q]
    exact Int.lt_ceil.mpr hq
  unfold roundHalfEven
  split_ifs with h1 h2 h3
  · exact hfc
  · exact hlt (Or.inl h2)
  · exact hfc
  · exact hlt (Or.inr h1)

lemma np_round2_nonneg {q : ℚ} (h : 0 ≤ q) : 0 ≤ np_round2 q := by
  have h0 : (0 : ℤ) ≤ ⌊q * 100⌋ := Int.floor_nonneg.mpr (by positivity)
  have h1 : (0 : ℤ) ≤ roundHalfEven (q * 100) :=
    le_trans h0 (floor_le_roundHalfEven (q * 100))
  unfold np_round2
  have h2 : (0 : ℚ) ≤ (roundHalfEven (q * 100) : ℚ) := by exact_mod_cast h1
  linarith

lemma np_round2_le_one {q : ℚ} (h : q ≤ 1) : np_round2 q ≤ 1 := by
  have h0 : ⌈q * 100⌉ ≤ (100 : ℤ) := Int.ceil_le.mpr (by push_cast; linarith)
  have h1 : roundHalfEven (q * 100) ≤ (100 : ℤ) :=
    le_trans (roundHalfEven_le_ceil (q * 100)) h0
  unfold np_round2
  have h2 : (roundHalfEven (q * 100) : ℚ) ≤ 100 := by exact_mod_cast h1
  linarith

/-! ### Least-squares machinery -/

lemma sum_xdev (n : ℕ) (hn : n ≠ 0) : ∑ i in Finset.range n, xdev n i = 0 := by
  have hq : (n : ℚ) ≠ 0 := Nat.cast_ne_zero.mpr hn
  simp only [xdev, xbar, Finset.sum_sub_distrib, Finset.sum_const,
    Finset.card_range, nsmul_eq_mul]
  field_simp

lemma sum_ydev (ys : List ℚ) (hn : ys.length ≠ 0) :
    ∑ i in Finset.range ys.length, (obs ys i - ybar ys) = 0 := by
  have hq : (ys.length : ℚ) ≠ 0 := Nat.cast_ne_zero.mpr hn
  simp only [ybar, Finset.sum_sub_distrib, Finset.sum_const,
    Finset.card_range, nsmul_eq_mul]
  field_simp

lemma Sxx_nonneg (n : ℕ) : 0 ≤ Sxx n :=
  Finset.sum_nonneg fun _ _ => sq_nonneg _

lemma xdev_eq_zero_of_Sxx_eq_zero {n : ℕ} (h : Sxx n = 0) :
    ∀ i ∈ Finset.range n, xdev n i = 0 := by
  intro i hi
  have := (Finset.sum_eq_zero_iff_of_nonneg (fun j _ => sq_nonneg (xdev n j))).mp h i hi
  exact (pow_eq_zero_iff (by norm_num)).mp this

lemma Sxx_pos {n : ℕ} (hn : 2 ≤ n) : 0 < Sxx n := by
  rcases lt_or_eq_of_le (Sxx_nonneg n) with h | h
  · exact h
  · exfalso
    have h0 : xdev n 0 = 0 :=
      xdev_eq_zero_of_Sxx_eq_zero h.symm 0 (Finset.mem_range.mpr (by omega))
    have h1 : xdev n 1 = 0 :=
      xdev_eq_zero_of_Sxx_eq_zero h.symm 1 (Finset.mem_range.mpr (by omega))
    unfold xdev at h0 h1
    push_cast at h0 h1
    linarith

lemma slope_mul_Sxx (ys : List ℚ) : slope ys * Sxx ys.length = Sxy ys := by
  unfold slope
  split_ifs with h
  · rw [h, mul_zero]
    unfold Sxy
    refine (Finset.sum_eq_zero fun i hi => ?_).symm
    rw [xdev_eq_zero_of_Sxx_eq_zero h i hi, zero_mul]
  · rw [div_mul_cancel₀ _ h]

/-- Residual of the fitted line at index `i`, written against the centered
variables. -/
def rres (ys : List ℚ) (i : ℕ) : ℚ :=
  obs ys i - ybar ys - slope ys * xdev ys.length i

lemma sum_rres (ys : List ℚ) (hn : ys.length ≠ 0) :
    ∑ i in Finset.range ys.length, rres ys i = 0 := by
  unfold rres
  rw [Finset.sum_sub_distrib, ← Finset.mul_sum, sum_ydev ys hn,
    sum_xdev ys.length hn, mul_zero, sub_zero]

lemma sum_rres_mul_xdev (ys : List ℚ) :
    ∑ i in Finset.range ys.length, rres ys i * xdev ys.length i = 0 := by
  unfold rres
  have expand : ∀ i, (obs ys i - ybar ys - slope ys * xdev ys.length i) *
      xdev ys.length i
      = xdev ys.length i * (obs ys i - ybar ys)
        - slope ys * (xdev ys.length i)^2 := by
    intro i; ring
  rw [Finset.sum_congr rfl fun i _ => expand i, Finset.sum_sub_distrib,
    ← Finset.mul_sum]
  have : ∑ i in Finset.range ys.length, xdev ys.length i * (obs ys i - ybar ys)
      = Sxy ys := rfl
  rw [this]
  have : ∑ i in Finset.range ys.length, (xdev ys.length i)^2 = Sxx ys.length := rfl
  rw [this, slope_mul_Sxx, sub_self]

lemma SSE_fit (ys : List ℚ) :
    SSE ys (slope ys) (intercept ys)
      = ∑ i in Finset.range ys.length, (rres ys i)^2 := by
  unfold SSE
  refine Finset.sum_congr rfl fun i _ => ?_
  unfold rres intercept xdev
  ring

/-- The decomposition of the sum of squared residuals of an arbitrary line
around the fitted one. -/
lemma SSE_decomp (ys : List ℚ) (hn : ys.length ≠ 0) (a b : ℚ) :
    SSE ys a b
      = SSE ys (slope ys) (intercept ys)
        + Sxx ys.length * (slope ys - a)^2
        + (ys.length : ℚ) * (ybar ys - a * xbar ys.length - b)^2 := by
  have expand : ∀ i : ℕ, (obs ys i - (a * i + b))^2
      = (rres ys i)^2
        + (slope ys - a)^2 * (xdev ys.length i)^2
        + (ybar ys - a * xbar ys.length - b)^2
        + 2 * (slope ys - a) * (rres ys i * xdev ys.length i)
        + 2 * (ybar ys - a * xbar ys.length - b) * rres ys i
        + 2 * ((slope ys - a) * (ybar ys - a * xbar ys.length - b))
            * xdev ys.length i := by
    intro i
    have key : obs ys i - (a * i + b)
        = rres ys i + (slope ys - a) * xdev ys.length i
          + (ybar ys - a * xbar ys.length - b) := by
      unfold rres xdev
      ring
    rw [key]
    ring
  have step1 : SSE ys a b
      = (∑ i in Finset.range ys.length, (rres ys i)^2)
        + (slope ys - a)^2 * Sxx ys.length
        + (ys.length : ℚ) * (ybar ys - a * xbar ys.length - b)^2
        + 2 * (slope ys - a)
            * (∑ i in Finset.range ys.length, rres ys i * xdev ys.length i)
        + 2 * (ybar ys - a * xbar ys.length - b)
            * (∑ i in Finset.range ys.length, rres ys i)
        + 2 * ((slope ys - a) * (ybar ys - a * xbar ys.length - b))
            * (∑ i in Finset.range ys.length, xdev ys.length i) := by
    unfold SSE Sxx
    rw [Finset.sum_congr rfl fun i _ => expand i]
    simp only [Finset.sum_add_distrib, ← Finset.mul_sum, Finset.sum_const,
      Finset.card_range, nsmul_eq_mul]
  rw [step1, sum_rres_mul_xdev ys, sum_rres ys hn, sum_xdev ys.length hn,
    SSE_fit ys]
  ring

/-- The fitted line of `forecast_next` minimizes the sum of squared
residuals over all lines. -/
lemma SSE_min (ys : List ℚ) (hn : ys.length ≠ 0) (a b : ℚ) :
    SSE ys (slope ys) (intercept ys) ≤ SSE ys a b := by
  rw [SSE_decomp ys hn a b]
  have h1 : 0 ≤ Sxx ys.length * (slope ys - a)^2 :=
    mul_nonneg (Sxx_nonneg _) (sq_nonneg _)
  have h2 : 0 ≤ (ys.length : ℚ) * (ybar ys - a * xbar ys.length - b)^2 :=
    mul_nonneg (by positivity) (sq_nonneg _)
  linarith

/-! ### The fit on an exactly linear series -/

/-- The pure trend line `b + k * t` sampled at `t = 0..n-1` (what the
Series Generator produces with zero noise when no clamping occurs). -/
def linear_series (n : ℕ) (b k : ℚ) : List ℚ :=
  (List.range n).map (fun t : ℕ => b + k * (t : ℚ))

lemma obs_map_range {n i : ℕ} (f : ℕ → ℚ) (hi : i < n) :
    obs ((List.range n).map f) i = f i := by
  unfold obs
  rw [List.getD_eq_getElem?_getD, List.getElem?_map, List.getElem?_range hi]
  rfl

lemma length_map_range (n : ℕ) (f : ℕ → ℚ) :
    ((List.range n).map f).length = n := by
  simp

lemma ybar_linear (n : ℕ) (hn : n ≠ 0) (b k : ℚ) :
    ybar (linear_series n b k) = b + k * xbar n := by
  have hq : (n : ℚ) ≠ 0 := Nat.cast_ne_zero.mpr hn
  unfold ybar xbar linear_series
  rw [length_map_range]
  rw [Finset.sum_congr rfl fun i hi =>
    obs_map_range _ (Finset.mem_range.mp hi)]
  rw [Finset.sum_add_distrib, Finset.sum_const, Finset.card_range,
    nsmul_eq_mul, ← Finset.mul_sum]
  field_simp
  ring

lemma Sxy_linear (n : ℕ) (hn : n ≠ 0) (b k : ℚ) :
    Sxy (linear_series n b k) = k * Sxx n := by
  unfold Sxy
  have hy := ybar_linear n hn b k
  unfold linear_series at hy ⊢
  rw [length_map_range, hy]
  unfold Sxx
  rw [Finset.mul_sum]
  refine Finset.sum_congr rfl fun i hi => ?_
  rw [obs_map_range _ (Finset.mem_range.mp hi)]
  unfold xdev
  ring

lemma slope_linear (n : ℕ) (hn : 2 ≤ n) (b k : ℚ) :
    slope (linear_series n b k) = k := by
  have h0 : n ≠ 0 := by omega
  have hS : Sxx n ≠ 0 := ne_of_gt (Sxx_pos hn)
  have hxy := Sxy_linear n h0 b k
  unfold slope
  unfold linear_series at hxy ⊢
  rw [length_map_range, if_neg hS, hxy, mul_div_assoc, div_self hS, mul_one]

lemma intercept_linear (n : ℕ) (hn : 2 ≤ n) (b k : ℚ) :
    intercept (linear_series n b k) = b := by
  have h0 : n ≠ 0 := by omega
  have hs := slope_linear n hn b k
  have hy := ybar_linear n h0 b k
  unfold intercept
  unfold linear_series at hs hy ⊢
  rw [length_map_range, hs, hy]
  ring

/-! ### The degenerate single-point fit -/

lemma slope_single (v : ℚ) : slope [v] = 0 := by
  have hS : Sxx ([v].length) = 0 := by
    norm_num [Sxx, xdev, xbar, Finset.sum_range_succ]
  unfold slope
  rw [if_pos hS]

lemma intercept_single (v : ℚ) : intercept [v] = v := by
  unfold intercept
  rw [slope_single]
  norm_num [ybar, obs, Finset.sum_range_succ]

lemma forecast_next_single (v : ℚ) (steps : ℕ) :
    forecast_next [v] steps = some (List.replicate steps (clip v)) := by
  unfold forecast_next
  rw [if_neg (by norm_num)]
  simp [slope_single, intercept_single, List.map_const']

/-! ### Remaining bridge lemmas -/

lemma np_round2_zero : np_round2 0 = 0 := by
  norm_num [np_round2, roundHalfEven]

lemma np_round2_one : np_round2 1 = 1 := by
  norm_num [np_round2, roundHalfEven]

lemma classify_eq_high_iff (p : ℚ) : classify p = RiskTier.HIGH ↔ 4/5 ≤ p := by
  unfold classify
  split_ifs with h1 h2
  · exact iff_of_true rfl h1
  · exact iff_of_false (by simp) h1
  · exact iff_of_false (by simp) h1

lemma classify_eq_medium_iff (p : ℚ) :
    classify p = RiskTier.MEDIUM ↔ 1/2 ≤ p ∧ ¬ (4/5 ≤ p) := by
  unfold classify
  split_ifs with h1 h2
  · exact iff_of_false (by simp) (fun hc => hc.2 h1)
  · exact iff_of_true rfl ⟨h2, h1⟩
  · exact iff_of_false (by simp) (fun hc => h2 hc.1)

lemma classify_eq_low_iff (p : ℚ) : classify p = RiskTier.LOW ↔ ¬ (1/2 ≤ p) := by
  unfold classify
  split_ifs with h1 h2
  · exact iff_of_false (by simp) (fun hc => hc (by linarith))
  · exact iff_of_false (by simp) (fun hc => hc h2)
  · exact iff_of_true rfl h2

lemma simulate_zero_noise_eq_linear (n : ℕ) (base : ℚ)
    (hrange : ∀ t : ℕ, t < n →
      1/5 ≤ base + (1/100) * (t : ℚ) ∧ base + (1/100) * (t : ℚ) ≤ 5) :
    simulate_crowd_series n base (fun _ => 0) = linear_series n base (1/100) := by
  unfold simulate_crowd_series linear_series
  refine List.map_congr_left fun t ht => ?_
  have h := hrange t (List.mem_range.mp ht)
  rw [add_zero]
  exact clip_eq_self h.1 h.2

/-! ## Claim theorems -/

/-- C1: on every non-empty forecast window and every threshold,
`bottleneck_probability` returns the fraction of points at or above the
threshold rounded to 2 decimal places; it is exactly `0` when every point
is below the threshold, exactly `1` when every point is at or above it,
and always lies in `[0, 1]`. -/
theorem bottleneck_probability_spec (w : List ℚ) (th : ℚ) (h : w ≠ []) :
    bottleneck_probability w th
        = some (np_round2 ((countGe w th : ℚ) / (w.length : ℚ))) ∧
    ((∀ x ∈ w, x < th) → bottleneck_probability w th = some 0) ∧
    ((∀ x ∈ w, th ≤ x) → bottleneck_probability w th = some 1) ∧
    (∀ p : ℚ, bottleneck_probability w th = some p → 0 ≤ p ∧ p ≤ 1) := by
  have hlen : w.length ≠ 0 := fun hl => h (List.length_eq_zero.mp hl)
  have hq : (0 : ℚ) < (w.length : ℚ) := by
    exact_mod_cast Nat.pos_of_ne_zero hlen
  have hmain : bottleneck_probability w th
      = some (np_round2 ((countGe w th : ℚ) / (w.length : ℚ))) := by
    unfold bottleneck_probability
    rw [if_neg hlen]
  refine ⟨hmain, ?_, ?_, ?_⟩
  · intro hall
    have hc : countGe w th = 0 := by
      unfold countGe
      rw [List.length_eq_zero, List.filter_eq_nil_iff]
      intro a ha
      simpa using not_le.mpr (hall a ha)
    rw [hmain, hc]
    norm_num [np_round2_zero]
  · intro hall
    have hc : countGe w th = w.length := by
      unfold countGe
      congr 1
      rw [List.filter_eq_self]
      intro a ha
      simpa using hall a ha
    rw [hmain, hc, div_self (ne_of_gt hq), np_round2_one]
  · intro p hp
    rw [hmain] at hp
    have hp' : p = np_round2 ((countGe w th : ℚ) / (w.length : ℚ)) :=
      (Option.some.inj hp).symm
    have hk : (countGe w th : ℚ) ≤ (w.length : ℚ) := by
      exact_mod_cast List.length_filter_le _ w
    have h0 : (0 : ℚ) ≤ (countGe w th : ℚ) / (w.length : ℚ) :=
      div_nonneg (by positivity) (le_of_lt hq)
    have h1 : (countGe w th : ℚ) / (w.length : ℚ) ≤ 1 :=
      (div_le_one hq).mpr hk
    rw [hp']
    exact ⟨np_round2_nonneg h0, np_round2_le_one h1⟩

/-- Witness for C1 at the two length-20 windows named by the spec: all
points below the threshold gives exactly `0`, all points at or above it
gives exactly `1`. -/
theorem bottleneck_probability_spec_witness :
    bottleneck_probability (List.replicate 20 (3 : ℚ)) 4 = some 0 ∧
    bottleneck_probability (List.replicate 20 (9/2 : ℚ)) 4 = some 1 := by
  constructor
  · exact (bottleneck_probability_spec (List.replicate 20 (3 : ℚ)) 4
      (by simp)).2.1
      (fun x hx => by rw [List.eq_of_mem_replicate hx]; norm_num)
  · exact (bottleneck_probability_spec (List.replicate 20 (9/2 : ℚ)) 4
      (by simp)).2.2.1
      (fun x hx => by rw [List.eq_of_mem_replicate hx]; norm_num)

/-- C2: the classification of a probability into a risk tier is HIGH for
`p ≥ 0.8`, MEDIUM for `0.5 ≤ p < 0.8`, LOW for `p < 0.5`, with both
boundaries inclusive to the higher tier; in particular
`classify 0.8 = HIGH`, `classify 0.79999 = MEDIUM`, `classify 0.5 = MEDIUM`
and `classify 0.49999 = LOW`. -/
theorem classify_boundaries (p : ℚ) :
    (4/5 ≤ p → classify p = RiskTier.HIGH) ∧
    (1/2 ≤ p → p < 4/5 → classify p = RiskTier.MEDIUM) ∧
    (p < 1/2 → classify p = RiskTier.LOW) ∧
    classify (8/10) = RiskTier.HIGH ∧
    classify (79999/100000) = RiskTier.MEDIUM ∧
    classify (5/10) = RiskTier.MEDIUM ∧
    classify (49999/100000) = RiskTier.LOW := by
  refine ⟨?_, ?_, ?_, ?_, ?_, ?_, ?_⟩
  · intro h
    exact (classify_eq_high_iff p).mpr h
  · intro h1 h2
    exact (classify_eq_medium_iff p).mpr ⟨h1, not_le.mpr h2⟩
  · intro h
    exact (classify_eq_low_iff p).mpr (not_le.mpr h)
  · exact (classify_eq_high_iff _).mpr (by norm_num)
  · exact (classify_eq_medium_iff _).mpr (by norm_num)
  · exact (classify_eq_medium_iff _).mpr (by norm_num)
  · exact (classify_eq_low_iff _).mpr (by norm_num)

/-- Witness for C2: the HIGH boundary case evaluated concretely. -/
theorem classify_boundaries_witness : classify (4/5) = RiskTier.HIGH :=
  (classify_boundaries (4/5)).1 (by norm_num)

/-- C3: on an empty forecast window `bottleneck_probability` does not raise
an `EmptyForecastError` (no such error exists in the code): numpy's
`.mean()` of an empty slice yields NaN, modelled as `none` — the undefined
value the spec forbids. -/
theorem bottleneck_probability_empty (th : ℚ) :
    bottleneck_probability [] th = none := rfl

/-- C4 counterexample: a single-point series — fewer than 2 points — is
not rejected: the forecast silently succeeds with the degenerate
zero-slope flat line instead of surfacing an `InsufficientDataError`. -/
theorem forecast_short_series_counterexample :
    forecast_next [(3 : ℚ)] 5 = some [3, 3, 3, 3, 3] ∧
    forecast_next [(3 : ℚ)] 5 ≠ none := by
  have h := forecast_next_single (3 : ℚ) 5
  have hc : clip (3 : ℚ) = 3 := clip_eq_self (by norm_num) (by norm_num)
  rw [hc] at h
  exact ⟨h, by rw [h]; simp⟩

/-- C4 amended: `forecast_next` fails only on the empty series (the
zero-sample fit is rejected by the library); any non-empty series — in
particular a single-point one — silently produces a forecast. -/
theorem forecast_next_none_iff (ys : List ℚ) (steps : ℕ) :
    forecast_next ys steps = none ↔ ys = [] := by
  unfold forecast_next
  constructor
  · intro h
    by_cases h0 : ys.length = 0
    · exact List.length_eq_zero.mp h0
    · rw [if_neg h0] at h
      exact absurd h (by simp)
  · intro h
    subst h
    simp

/-- Witness for C4 amended: the empty series is rejected, the one-point
series is not. -/
theorem forecast_next_none_iff_witness :
    forecast_next ([] : List ℚ) 20 = none ∧
    ¬ forecast_next [(3 : ℚ)] 20 = none := by
  constructor
  · exact (forecast_next_none_iff [] 20).mpr rfl
  · intro h
    exact absurd ((forecast_next_none_iff [(3 : ℚ)] 20).mp h) (by simp)

/-- C5: on every series of length ≥ 2 and every step count,
`forecast_next` evaluates, at the indices `len..len+steps-1` in order, a
line that minimizes the sum of squared residuals over the pairs
`(index, value)` — ordinary least squares — and clamps every predicted
value into `[0.2, 5.0]`, producing exactly `steps` values. -/
theorem forecast_next_ols (ys : List ℚ) (steps : ℕ) (h2 : 2 ≤ ys.length) :
    ∃ m c : ℚ,
      (∀ a b : ℚ, SSE ys m c ≤ SSE ys a b) ∧
      forecast_next ys steps
        = some ((List.range steps).map
            (fun j : ℕ => clip (c + m * ((ys.length : ℚ) + (j : ℚ))))) ∧
      (∀ l : List ℚ, forecast_next ys steps = some l →
        l.length = steps ∧ ∀ x ∈ l, 1/5 ≤ x ∧ x ≤ 5) := by
  have hn : ys.length ≠ 0 := by omega
  refine ⟨slope ys, intercept ys, fun a b => SSE_min ys hn a b, ?_, ?_⟩
  · unfold forecast_next
    rw [if_neg hn]
  · intro l hl
    unfold forecast_next at hl
    rw [if_neg hn] at hl
    have hl' := Option.some.inj hl
    subst hl'
    constructor
    · simp
    · intro x hx
      rcases List.mem_map.mp hx with ⟨j, -, rfl⟩
      exact clip_mem _

/-- Witness for C5 at the series `[1, 2]` with 2 forecast steps. -/
theorem forecast_next_ols_witness :
    ∃ m c : ℚ,
      (∀ a b : ℚ, SSE [1, 2] m c ≤ SSE [1, 2] a b) ∧
      forecast_next [1, 2] 2
        = some ((List.range 2).map
            (fun j : ℕ => clip (c + m * ((([1, 2] : List ℚ).length : ℚ) + (j : ℚ))))) ∧
      (∀ l : List ℚ, forecast_next [1, 2] 2 = some l →
        l.length = 2 ∧ ∀ x ∈ l, 1/5 ≤ x ∧ x ≤ 5) :=
  forecast_next_ols [1, 2] 2 (by norm_num)

/-- C6 counterexample: the `steps` parameter of `forecast_next` does not
default to 20 — its declared default is 15. -/
theorem forecast_default_steps_counterexample :
    ¬ (forecast_next_default_steps = 20) := by
  unfold forecast_next_default_steps
  omega

/-- C6 amended: `steps` defaults to 15 in the `forecast_next` signature
(the dashboard passes `steps=20` explicitly at its call site), and the
classifier threshold defaults to 4.0. -/
theorem pipeline_defaults :
    forecast_next_default_steps = 15 ∧
    bottleneck_default_threshold = 4 ∧
    predictive_page_steps = 20 ∧
    predictive_page_threshold = 4 :=
  ⟨rfl, rfl, rfl, rfl⟩

/-- C7: per evaluation, tier HIGH appends exactly one alert with
`risk_level = "high"` and the evaluation's UTC timestamp string, tier
MEDIUM exactly one with `risk_level = "medium"`, tier LOW appends nothing;
and the alert log is read back most-recent-first truncated to the caller's
limit. -/
theorem alert_emission_spec (log : List Alert) (zone t : String) (p : ℚ) :
    (classify p = RiskTier.HIGH →
       predictive_alert log zone p t
         = log ++ [{ zone := zone, risk_level := "high", prediction_time := t }]) ∧
    (classify p = RiskTier.MEDIUM →
       predictive_alert log zone p t
         = log ++ [{ zone := zone, risk_level := "medium", prediction_time := t }]) ∧
    (classify p = RiskTier.LOW → predictive_alert log zone p t = log) ∧
    (∀ a : Alert, ∀ lim : ℕ,
       list_alerts (add_alert log a) (lim + 1) = a :: list_alerts log lim) := by
  refine ⟨?_, ?_, ?_, ?_⟩
  · intro h
    have h1 := (classify_eq_high_iff p).mp h
    unfold predictive_alert add_alert
    rw [if_pos h1]
  · intro h
    have h1 := (classify_eq_medium_iff p).mp h
    unfold predictive_alert add_alert
    rw [if_neg h1.2, if_pos h1.1]
  · intro h
    have h1 := (classify_eq_low_iff p).mp h
    unfold predictive_alert
    rw [if_neg (fun hc => h1 (by linarith)), if_neg h1]
  · intro a lim
    unfold list_alerts add_alert
    simp [List.reverse_append]

/-- Witness for C7: a HIGH evaluation on an empty log emits exactly the
one "high" alert, which is then the most recent entry. -/
theorem alert_emission_spec_witness :
    predictive_alert [] "Z" (9/10) "T"
      = [] ++ [{ zone := "Z", risk_level := "high", prediction_time := "T" }] :=
  (alert_emission_spec [] "Z" "T" (9/10)).1
    ((classify_eq_high_iff _).mpr (by norm_num))

/-- C8 counterexample: a camera-derived series of five empty frames
(density `0 / max(100, 1e-6) = 0` each) is accepted into the pipeline
unmodified, and `0` violates the plausible-range invariant `[0.2, 5.0]`. -/
theorem density_invariant_counterexample :
    accept_video_series (List.replicate 5 (frame_density 0 100)) [3]
      = [0, 0, 0, 0, 0] ∧
    ¬ (1/5 ≤ (0 : ℚ)) := by
  constructor
  · have hd : frame_density 0 100 = 0 := by
      norm_num [frame_density]
    rw [hd]
    norm_num [accept_video_series]
    rfl
  · norm_num

/-- C8 amended: every series the Series Generator produces satisfies the
`[0.2, 5.0]` invariant, but an externally-derived (camera) series of at
least 5 points is accepted unclamped, so the invariant does not extend to
it. -/
theorem density_series_invariant (n : ℕ) (base : ℚ) (noise : ℕ → ℚ) :
    (∀ x ∈ simulate_crowd_series n base noise, 1/5 ≤ x ∧ x ≤ 5) ∧
    (∀ dens cur : List ℚ, 5 ≤ dens.length → accept_video_series dens cur = dens) := by
  constructor
  · intro x hx
    unfold simulate_crowd_series at hx
    rcases List.mem_map.mp hx with ⟨tt, -, rfl⟩
    exact clip_mem _
  · intro dens cur hlen
    unfold accept_video_series
    rw [if_pos hlen]

/-- Witness for C8 amended: the out-of-range camera series of C8's
counterexample passes through acceptance unmodified. -/
theorem density_series_invariant_witness :
    accept_video_series [0, 0, 0, 0, 0] ([] : List ℚ) = [0, 0, 0, 0, 0] :=
  (density_series_invariant 0 0 (fun _ => 0)).2 [0, 0, 0, 0, 0] []
    (by norm_num)

/-- C9 counterexample: with `base_density = 0.19` and 2 observed points the
clamping is active inside the observed window, so the forecast (flat at
`0.2`) does not lie on the clamped trend line: at future index 2 the trend
gives `clip(0.19 + 0.01 * 2) = 0.21 ≠ 0.2`. -/
theorem round_trip_counterexample :
    forecast_next (simulate_crowd_series 2 (19/100) (fun _ => 0)) 1
      = some [1/5] ∧
    (1/5 : ℚ) ≠ clip (19/100 + (1/100) * 2) := by
  constructor
  · norm_num [forecast_next, simulate_crowd_series, clip, intercept, slope,
      Sxy, Sxx, xbar, ybar, xdev, obs, Finset.sum_range_succ, List.range_succ]
  · norm_num [clip]

/-- C9 amended: whenever the zero-noise generated series is untouched by
clamping on the observed window (every `base + 0.01 t` already lies in
`[0.2, 5.0]` for `t < n`, `n ≥ 2`), the forecast extrapolates exactly
along the linear trend `base + 0.01 t` at the future indices, clamped. -/
theorem round_trip_zero_noise (n steps : ℕ) (base : ℚ) (hn : 2 ≤ n)
    (hrange : ∀ t : ℕ, t < n →
      1/5 ≤ base + (1/100) * (t : ℚ) ∧ base + (1/100) * (t : ℚ) ≤ 5) :
    forecast_next (simulate_crowd_series n base (fun _ => 0)) steps
      = some ((List.range steps).map
          (fun j : ℕ => clip (base + (1/100) * ((n : ℚ) + (j : ℚ))))) := by
  rw [simulate_zero_noise_eq_linear n base hrange]
  have hlen : (linear_series n base (1/100)).length = n := by
    unfold linear_series
    exact length_map_range n _
  unfold forecast_next
  rw [hlen, if_neg (by omega), slope_linear n hn base (1/100),
    intercept_linear n hn base (1/100)]

/-- Witness for C9 amended: two observed points at `base = 2.5`, one
forecast step. -/
theorem round_trip_zero_noise_witness :
    forecast_next (simulate_crowd_series 2 (5/2) (fun _ => 0)) 1
      = some ((List.range 1).map
          (fun j : ℕ => clip (5/2 + (1/100) * ((2 : ℚ) + (j : ℚ))))) :=
  round_trip_zero_noise 2 1 (5/2) (by norm_num)
    (by
      intro t ht
      interval_cases t <;> norm_num)

/-- C10: on a single-point series `[v]` the forecast does not fail: the
degenerate fit has zero slope and intercept `v`, so the forecast is a flat
line of exactly `steps` copies of `v` clamped into `[0.2, 5.0]`. -/
theorem forecast_single_point_flat (v : ℚ) (steps : ℕ) (_h : 1 ≤ steps) :
    forecast_next [v] steps ≠ none ∧
    forecast_next [v] steps = some (List.replicate steps (clip v)) ∧
    1/5 ≤ clip v ∧ clip v ≤ 5 := by
  refine ⟨?_, forecast_next_single v steps, clip_mem v⟩
  rw [forecast_next_single v steps]
  simp

/-- Witness for C10 at `v = 10`, three steps: the flat forecast is the
clamped value `5` repeated. -/
theorem forecast_single_point_flat_witness :
    forecast_next [(10 : ℚ)] 3 ≠ none ∧
    forecast_next [(10 : ℚ)] 3 = some (List.replicate 3 (clip 10)) ∧
    1/5 ≤ clip (10 : ℚ) ∧ clip (10 : ℚ) ≤ 5 :=
  forecast_single_point_flat 10 3 (by norm_num)

end NewCrowd
